import Mathlib

/-!
Verification development for the go-tx-map repository (package txmap).

The definitions below are a shallow embedding of the Go source in
`tx_map_native.go` and its companions: Go maps become association lists
(for hash-keyed shards) or functions to `Option` (for the bucket table,
whose keys are the dense indices `0 .. nrOfBuckets`), method receivers
become explicit state arguments, mutating methods return the new state
together with the Go `error` result, and a `nil`-pointer dereference
(possible when a bucket slot is missing from the bucket table) is
modelled as `Option.none` on the whole result.

Machine integers: `chainhash.Hash` is 32 bytes, modelled as a list of
`Fin 256` of length 32; `uint16` / `uint64` quantities are modelled as
`Nat` (no arithmetic in the translated code can overflow 16 / 64 bits:
the router value `b0<<8 ||| b1` is below `2^16`, and stored values are
never computed with); the Go `int` length counters are modelled as `Int`
because the set-variant `NativeMap` decrements them unconditionally.
-/

/-- A 32-byte content-addressed key, as in `chainhash.Hash`. -/
def Hash : Type := { l : List (Fin 256) // l.length = 32 }

instance : DecidableEq Hash := fun a b =>
  decidable_of_iff (a.val = b.val) Subtype.ext_iff.symm

/-- Builds a hash whose first two bytes are `b0`, `b1` and whose remaining
30 bytes are zero; enough to exercise the routing function, which reads
only the leading two bytes. -/
def mkHash (b0 b1 : Fin 256) : Hash :=
  ⟨b0 :: b1 :: List.replicate 30 0, by simp⟩

/-- Byte `i` of a hash (as a `Nat` below 256). -/
def Hash.byte (h : Hash) (i : Nat) : Nat :=
  (h.val.getD i 0).val

/-- Sentinel identities of the package-level error variables
`ErrHashAlreadyExists`, `ErrHashDoesNotExist`, `ErrBucketDoesNotExist`,
used for `errors.Is`-style matching. -/
inductive Sentinel where
  | hashAlreadyExists
  | hashDoesNotExist
  | bucketDoesNotExist
  deriving DecidableEq

/-- Modelled from the spec: the three exposed sentinel error conditions
(*hash-already-exists*, *hash-does-not-exist*, *bucket-does-not-exist*)
and the wrapping performed by `fmt.Errorf("...%w...")` at each error
site of `tx_map_native.go`; the sentinel variables themselves are
declared in a repository file that is not under `src/`. Each constructor
records the error site's formatting arguments. -/
inductive MapError where
  /-- Produced by `NativeMapUint64.Put` / `PutMulti`: wraps
  `ErrHashAlreadyExists` with the offending hash. -/
  | hashAlreadyExists (hash : Hash)
  /-- Produced by `NativeMapUint64.Set` / `Delete`: wraps
  `ErrHashDoesNotExist` with the offending hash. -/
  | hashDoesNotExist (hash : Hash)
  /-- Produced by the split maps' `Delete`: wraps `ErrHashDoesNotExist`
  with the bucket index and the hash. -/
  | hashDoesNotExistInBucket (bucket : Nat) (hash : Hash)
  /-- Produced by the split maps' `Delete`: wraps `ErrBucketDoesNotExist`
  with the missing bucket index. -/
  | bucketDoesNotExist (bucket : Nat)
  /-- Produced by `PutMultiBucket`: wraps `ErrBucketDoesNotExist` with the
  requested bucket and the maximum bucket. -/
  | bucketDoesNotExistMax (bucket maxBucket : Nat)
  /-- Produced by the split maps' `PutMulti`: wraps the underlying cause
  with the offending bucket index
  (`fmt.Errorf("failed to put multi in bucket %d: %w", ...)`). -/
  | putMultiWrap (bucket : Nat) (cause : MapError)
  deriving DecidableEq

/-- The sentinel an error matches under `errors.Is`, unwrapping the
`%w` chains built by the code. -/
def MapError.sentinel : MapError → Sentinel
  | .hashAlreadyExists _ => .hashAlreadyExists
  | .hashDoesNotExist _ => .hashDoesNotExist
  | .hashDoesNotExistInBucket _ _ => .hashDoesNotExist
  | .bucketDoesNotExist _ => .bucketDoesNotExist
  | .bucketDoesNotExistMax _ _ => .bucketDoesNotExist
  | .putMultiWrap _ cause => cause.sentinel

/-- Modelled from the spec: the routing function `Bytes2Uint16Buckets`
(its definition lives in a repository file that is not under `src/`;
only its fuzz test, benchmark and call sites are). The spec prescribes
interpreting the first two bytes of the key as a big-endian 16-bit
integer and reducing modulo the bucket count:
`(uint16(key[0])<<8 | uint16(key[1])) % mod`, which is also the expected
value checked by `FuzzBytes2Uint16Buckets`. Meaningful for `mod > 0`
(Go panics on modulo by zero; the fuzz test skips `mod == 0`). -/
def Bytes2Uint16Buckets (hash : Hash) (mod : Nat) : Nat :=
  ((hash.byte 0) <<< 8 ||| hash.byte 1) % mod

/-!
Go-map primitives. A `map[chainhash.Hash]V` is modelled as an
association list without duplicate keys; `goLookup` is map indexing,
`goInsert` is `m[k] = v` (replaces the binding in place, or appends),
`goErase` is `delete(m, k)`. List order stands in for Go's unspecified
iteration order.
-/

/-- Go map read `v, ok := m[k]`. -/
def goLookup (m : List (Hash × Nat)) (k : Hash) : Option Nat :=
  match m with
  | [] => none
  | (k', v) :: rest => if k' = k then some v else goLookup rest k

/-- Go map write `m[k] = v`. -/
def goInsert (m : List (Hash × Nat)) (k : Hash) (v : Nat) : List (Hash × Nat) :=
  match m with
  | [] => [(k, v)]
  | (k', v') :: rest =>
    if k' = k then (k, v) :: rest else (k', v') :: goInsert rest k v

/-- Go map delete `delete(m, k)`. -/
def goErase (m : List (Hash × Nat)) (k : Hash) : List (Hash × Nat) :=
  match m with
  | [] => []
  | (k', v') :: rest => if k' = k then rest else (k', v') :: goErase rest k

/-!
`NativeMap`: the key-only (hash-set) concurrent map backed by
`map[chainhash.Hash]struct{}` plus a separate `length` counter
(`tx_map_native.go`, lines 14-178). The value-less Go map is modelled as
the list of stored keys; `m[hash] = struct{}{}` appends the key only
when absent (a Go map overwrite of an existing key changes nothing).
-/

/-- State of `NativeMap`: the stored key set and the `length` field. -/
structure NativeMap where
  m : List Hash
  length : Int

/-- Go `NewNativeMap(length uint32)`: an empty map; the argument is only
a preallocation hint and does not affect the abstract state. -/
def NewNativeMap (_length : Nat) : NativeMap :=
  { m := [], length := 0 }

/-- Go `NativeMap.Exists`. -/
def NativeMap.Exists (s : NativeMap) (hash : Hash) : Bool :=
  hash ∈ s.m

/-- Go set-map write `s.m[hash] = struct{}{}`. -/
def goSetInsert (m : List Hash) (k : Hash) : List Hash :=
  if k ∈ m then m else m ++ [k]

/-- Go `NativeMap.Put`: increments `length` unconditionally, stores the
hash, and always returns `nil`. -/
def NativeMap.Put (s : NativeMap) (hash : Hash) : Option MapError × NativeMap :=
  (none, { m := goSetInsert s.m hash, length := s.length + 1 })

/-- Go `NativeMap.PutMulti`: stores every hash, incrementing `length`
once per element of the slice; always returns `nil`. -/
def NativeMap.PutMulti (s : NativeMap) (hashes : List Hash) :
    Option MapError × NativeMap :=
  (none, hashes.foldl
    (fun t hash => { m := goSetInsert t.m hash, length := t.length + 1 }) s)

/-- Go `NativeMap.Delete`: decrements `length` unconditionally, removes
the hash, and always returns `nil`. -/
def NativeMap.Delete (s : NativeMap) (hash : Hash) :
    Option MapError × NativeMap :=
  (none, { m := s.m.filter (· ≠ hash), length := s.length - 1 })

/-- Go `NativeMap.Length`. -/
def NativeMap.Length (s : NativeMap) : Int :=
  s.length

/-- Go `NativeMap.Keys`: the stored keys, in the map's iteration order. -/
def NativeMap.Keys (s : NativeMap) : List Hash :=
  s.m

/-!
`NativeMapUint64`: the uint64-valued concurrent map
(`tx_map_native.go`, lines 183-452). This is also the per-bucket store
of both split maps.
-/

/-- State of `NativeMapUint64`: the Go map contents (association list)
and the `length` field. -/
structure NativeMapUint64 where
  m : List (Hash × Nat)
  length : Int

/-- Go `NewNativeMapUint64(length uint32)`: an empty map; the argument
is only a preallocation hint and does not affect the abstract state. -/
def NewNativeMapUint64 (_length : Nat) : NativeMapUint64 :=
  { m := [], length := 0 }

/-- Go `NativeMapUint64.Exists`. -/
def NativeMapUint64.Exists (s : NativeMapUint64) (hash : Hash) : Bool :=
  (goLookup s.m hash).isSome

/-- Go `NativeMapUint64.Get`: returns `(value, found)`. -/
def NativeMapUint64.Get (s : NativeMapUint64) (hash : Hash) : Nat × Bool :=
  match goLookup s.m hash with
  | none => (0, false)
  | some n => (n, true)

/-- Go `NativeMapUint64.Put`: errors with the wrapped
`ErrHashAlreadyExists` if the hash is present, otherwise stores it and
increments `length`. -/
def NativeMapUint64.Put (s : NativeMapUint64) (hash : Hash) (n : Nat) :
    Option MapError × NativeMapUint64 :=
  if (goLookup s.m hash).isSome then
    (some (.hashAlreadyExists hash), s)
  else
    (none, { m := goInsert s.m hash n, length := s.length + 1 })

/-- Go `NativeMapUint64.PutMulti`: applies the body of `Put` to each
hash in slice order; stops at the first duplicate, leaving the earlier
insertions in place. -/
def NativeMapUint64.PutMulti (s : NativeMapUint64) (hashes : List Hash)
    (n : Nat) : Option MapError × NativeMapUint64 :=
  match hashes with
  | [] => (none, s)
  | hash :: rest =>
    if (goLookup s.m hash).isSome then
      (some (.hashAlreadyExists hash), s)
    else
      NativeMapUint64.PutMulti
        { m := goInsert s.m hash n, length := s.length + 1 } rest n

/-- Go `NativeMapUint64.Set`: update-only; errors with the wrapped
`ErrHashDoesNotExist` if the hash is absent. -/
def NativeMapUint64.Set (s : NativeMapUint64) (hash : Hash) (value : Nat) :
    Option MapError × NativeMapUint64 :=
  if (goLookup s.m hash).isSome then
    (none, { m := goInsert s.m hash value, length := s.length })
  else
    (some (.hashDoesNotExist hash), s)

/-- Go `NativeMapUint64.SetIfExists`: returns the applied flag; the Go
error result is always `nil` and is omitted. -/
def NativeMapUint64.SetIfExists (s : NativeMapUint64) (hash : Hash)
    (value : Nat) : Bool × NativeMapUint64 :=
  if (goLookup s.m hash).isSome then
    (true, { m := goInsert s.m hash value, length := s.length })
  else
    (false, s)

/-- Go `NativeMapUint64.SetIfNotExists`: returns the applied flag; the
Go error result is always `nil` and is omitted. -/
def NativeMapUint64.SetIfNotExists (s : NativeMapUint64) (hash : Hash)
    (value : Nat) : Bool × NativeMapUint64 :=
  if (goLookup s.m hash).isSome then
    (false, s)
  else
    (true, { m := goInsert s.m hash value, length := s.length + 1 })

/-- Go `NativeMapUint64.Length`. -/
def NativeMapUint64.Length (s : NativeMapUint64) : Int :=
  s.length

/-- Go `NativeMapUint64.Keys`. -/
def NativeMapUint64.Keys (s : NativeMapUint64) : List Hash :=
  s.m.map Prod.fst

/-- Go `NativeMapUint64.Delete`: errors with the wrapped
`ErrHashDoesNotExist` if the hash is absent, otherwise removes it and
decrements `length`. -/
def NativeMapUint64.Delete (s : NativeMapUint64) (hash : Hash) :
    Option MapError × NativeMapUint64 :=
  if (goLookup s.m hash).isSome then
    (none, { m := goErase s.m hash, length := s.length - 1 })
  else
    (some (.hashDoesNotExist hash), s)

/-- Observable behavior of Go `NativeMapUint64.Iter`: the sequence of
entries the visitor is applied to, walking the map until the visitor
returns `true` (that entry included). -/
def iterVisited (m : List (Hash × Nat)) (f : Hash → Nat → Bool) :
    List (Hash × Nat) :=
  match m with
  | [] => []
  | (k, v) :: rest => (k, v) :: (if f k v then [] else iterVisited rest f)

/-- Trace of `NativeMapUint64.Iter` as the list of visited entries. -/
def NativeMapUint64.iterTrace (s : NativeMapUint64) (f : Hash → Nat → Bool) :
    List (Hash × Nat) :=
  iterVisited s.m f

/-!
`NativeSplitMap`: the sharded map (`tx_map_native.go`, lines 554-798).
The Go field `m map[uint16]*NativeMapUint64` is modelled as a function
from bucket index to `Option NativeMapUint64` (`none` = slot absent from
the table). Go's `g.m[i]` on an absent slot yields a nil pointer and the
subsequent method call panics; such a panic is modelled by returning
`none` from the operation.
-/

/-- Bucket table of a split map. -/
def BucketTable : Type := Nat → Option NativeMapUint64

/-- Writes bucket slot `i` of the table (both the constructor loop's
`m.m[i] = ...` and, after a method call mutated a bucket in place through
its pointer, the updated table view). -/
def BucketTable.set (t : BucketTable) (i : Nat) (st : NativeMapUint64) :
    BucketTable :=
  fun j => if j = i then some st else t j

/-- Removes bucket slot `i` (Go `delete(g.m, i)`, reachable for a caller
through the shard table `Map()` exposes; used by the adversarial
shard-removal scenario). -/
def BucketTable.remove (t : BucketTable) (i : Nat) : BucketTable :=
  fun j => if j = i then none else t j

/-- State of `NativeSplitMap`. -/
structure NativeSplitMap where
  m : BucketTable
  nrOfBuckets : Nat

/-- Go `NewNativeSplitMap(length int, buckets ...uint16)`: bucket count
defaults to 1024 unless overridden, and the loop
`for i := uint16(0); i <= m.nrOfBuckets; i++` eagerly creates one
`NativeMapUint64` per index `0 .. nrOfBuckets` inclusive. The per-bucket
capacity hint `uint32(math.Ceil(float64(length)/float64(nrOfBuckets)))`
does not affect the abstract state and is passed as 0. -/
def NewNativeSplitMap (_length : Int) (buckets : List Nat) : NativeSplitMap :=
  let useBuckets : Nat := match buckets with
    | [] => 1024
    | b :: _ => b
  { m := (List.range (useBuckets + 1)).foldl
      (fun t i => t.set i (NewNativeMapUint64 0)) (fun _ => none),
    nrOfBuckets := useBuckets }

/-- Go `NativeSplitMap.Buckets`. -/
def NativeSplitMap.Buckets (g : NativeSplitMap) : Nat :=
  g.nrOfBuckets

/-- Go `NativeSplitMap.Exists`: routes, then delegates; `none` models
the nil-pointer panic when the routed slot is absent. -/
def NativeSplitMap.Exists (g : NativeSplitMap) (hash : Hash) : Option Bool :=
  (g.m (Bytes2Uint16Buckets hash g.nrOfBuckets)).map
    (fun st => st.Exists hash)

/-- Go `NativeSplitMap.Get`. -/
def NativeSplitMap.Get (g : NativeSplitMap) (hash : Hash) :
    Option (Nat × Bool) :=
  (g.m (Bytes2Uint16Buckets hash g.nrOfBuckets)).map
    (fun st => st.Get hash)

/-- Go `NativeSplitMap.Put`: routes and delegates to the bucket's `Put`,
which mutates that bucket in place. -/
def NativeSplitMap.Put (g : NativeSplitMap) (hash : Hash) (n : Nat) :
    Option (Option MapError × NativeSplitMap) :=
  let bucket := Bytes2Uint16Buckets hash g.nrOfBuckets
  (g.m bucket).map (fun st =>
    let r := st.Put hash n
    (r.1, { g with m := g.m.set bucket r.2 }))

/-- Go `NativeSplitMap.PutMulti`: routes and puts each hash in slice
order; the first failing `Put` is wrapped with the offending bucket
index and earlier insertions remain. -/
def NativeSplitMap.PutMulti (g : NativeSplitMap) (hashes : List Hash)
    (n : Nat) : Option (Option MapError × NativeSplitMap) :=
  match hashes with
  | [] => some (none, g)
  | hash :: rest =>
    match g.Put hash n with
    | none => none
    | some (some e, g') =>
      some (some (.putMultiWrap (Bytes2Uint16Buckets hash g.nrOfBuckets) e),
        g')
    | some (none, g') => g'.PutMulti rest n

/-- Go `NativeSplitMap.PutMultiBucket`: rejects `bucket > nrOfBuckets`
with the wrapped `ErrBucketDoesNotExist`, otherwise inserts the hashes
directly into the named bucket without routing. -/
def NativeSplitMap.PutMultiBucket (g : NativeSplitMap) (bucket : Nat)
    (hashes : List Hash) (n : Nat) :
    Option (Option MapError × NativeSplitMap) :=
  if bucket > g.nrOfBuckets then
    some (some (.bucketDoesNotExistMax bucket g.nrOfBuckets), g)
  else
    (g.m bucket).map (fun st =>
      let r := st.PutMulti hashes n
      (r.1, { g with m := g.m.set bucket r.2 }))

/-- Go `NativeSplitMap.Set`. -/
def NativeSplitMap.Set (g : NativeSplitMap) (hash : Hash) (value : Nat) :
    Option (Option MapError × NativeSplitMap) :=
  let bucket := Bytes2Uint16Buckets hash g.nrOfBuckets
  (g.m bucket).map (fun st =>
    let r := st.Set hash value
    (r.1, { g with m := g.m.set bucket r.2 }))

/-- Go `NativeSplitMap.SetIfExists`. -/
def NativeSplitMap.SetIfExists (g : NativeSplitMap) (hash : Hash)
    (value : Nat) : Option (Bool × NativeSplitMap) :=
  let bucket := Bytes2Uint16Buckets hash g.nrOfBuckets
  (g.m bucket).map (fun st =>
    let r := st.SetIfExists hash value
    (r.1, { g with m := g.m.set bucket r.2 }))

/-- Go `NativeSplitMap.SetIfNotExists`. -/
def NativeSplitMap.SetIfNotExists (g : NativeSplitMap) (hash : Hash)
    (value : Nat) : Option (Bool × NativeSplitMap) :=
  let bucket := Bytes2Uint16Buckets hash g.nrOfBuckets
  (g.m bucket).map (fun st =>
    let r := st.SetIfNotExists hash value
    (r.1, { g with m := g.m.set bucket r.2 }))

/-- Go `NativeSplitMap.Length`: sums `g.m[i].Length()` for
`i = 0 .. nrOfBuckets`; `none` models the nil-pointer panic when a slot
is absent. -/
def NativeSplitMap.Length (g : NativeSplitMap) : Option Int :=
  (List.range (g.nrOfBuckets + 1)).foldl
    (fun acc i => acc.bind (fun a => (g.m i).map (fun st => a + st.length)))
    (some 0)

/-- Go `NativeSplitMap.Delete`: explicitly distinguishes an absent
bucket slot (wrapped `ErrBucketDoesNotExist`) from an absent hash
(wrapped `ErrHashDoesNotExist`), checking the bucket first; otherwise
delegates to the bucket's `Delete`. -/
def NativeSplitMap.Delete (g : NativeSplitMap) (hash : Hash) :
    Option MapError × NativeSplitMap :=
  let bucket := Bytes2Uint16Buckets hash g.nrOfBuckets
  match g.m bucket with
  | none => (some (.bucketDoesNotExist bucket), g)
  | some st =>
    if st.Exists hash then
      let r := st.Delete hash
      (r.1, { g with m := g.m.set bucket r.2 })
    else
      (some (.hashDoesNotExistInBucket bucket hash), g)

/-- Trace of Go `NativeSplitMap.Iter`: the loop
`for i := 0; i <= nrOfBuckets; i++ { g.m[i].Iter(f) }`, as the
concatenated sequence of entries the visitor is applied to; `none`
models the nil-pointer panic when a slot is absent. -/
def NativeSplitMap.iterTrace (g : NativeSplitMap) (f : Hash → Nat → Bool) :
    Option (List (Hash × Nat)) :=
  (List.range (g.nrOfBuckets + 1)).foldl
    (fun acc i => acc.bind (fun l => (g.m i).map
      (fun st => l ++ st.iterTrace f)))
    (some [])

/-!
`NativeSplitMapUint64`: the second sharded uint64-valued map
(`tx_map_native.go`, lines 800-1011); same shape as `NativeSplitMap`,
with its own constructor and `PutMulti`/`Delete`/`Length` bodies.
-/

/-- State of `NativeSplitMapUint64`. -/
structure NativeSplitMapUint64 where
  m : BucketTable
  nrOfBuckets : Nat

/-- Go `NewNativeSplitMapUint64(length uint32, buckets ...uint16)`:
bucket count defaults to 1024 unless overridden; the loop eagerly
creates one `NativeMapUint64` per index `0 .. nrOfBuckets` inclusive.
The per-bucket capacity hint `length / uint32(nrOfBuckets)` does not
affect the abstract state and is passed as 0. -/
def NewNativeSplitMapUint64 (_length : Nat) (buckets : List Nat) :
    NativeSplitMapUint64 :=
  let useBuckets : Nat := match buckets with
    | [] => 1024
    | b :: _ => b
  { m := (List.range (useBuckets + 1)).foldl
      (fun t i => t.set i (NewNativeMapUint64 0)) (fun _ => none),
    nrOfBuckets := useBuckets }

/-- Go `NativeSplitMapUint64.Exists`. -/
def NativeSplitMapUint64.Exists (g : NativeSplitMapUint64) (hash : Hash) :
    Option Bool :=
  (g.m (Bytes2Uint16Buckets hash g.nrOfBuckets)).map
    (fun st => st.Exists hash)

/-- Go `NativeSplitMapUint64.Get`. -/
def NativeSplitMapUint64.Get (g : NativeSplitMapUint64) (hash : Hash) :
    Option (Nat × Bool) :=
  (g.m (Bytes2Uint16Buckets hash g.nrOfBuckets)).map
    (fun st => st.Get hash)

/-- Go `NativeSplitMapUint64.Put`. -/
def NativeSplitMapUint64.Put (g : NativeSplitMapUint64) (hash : Hash)
    (n : Nat) : Option (Option MapError × NativeSplitMapUint64) :=
  let bucket := Bytes2Uint16Buckets hash g.nrOfBuckets
  (g.m bucket).map (fun st =>
    let r := st.Put hash n
    (r.1, { g with m := g.m.set bucket r.2 }))

/-- Go `NativeSplitMapUint64.PutMulti`: routes and puts each hash in
slice order; the first failing `Put` is returned wrapped as
`failed to put multi in bucket %d: %w` and earlier insertions remain. -/
def NativeSplitMapUint64.PutMulti (g : NativeSplitMapUint64)
    (hashes : List Hash) (n : Nat) :
    Option (Option MapError × NativeSplitMapUint64) :=
  match hashes with
  | [] => some (none, g)
  | hash :: rest =>
    match g.Put hash n with
    | none => none
    | some (some e, g') =>
      some (some (.putMultiWrap (Bytes2Uint16Buckets hash g.nrOfBuckets) e),
        g')
    | some (none, g') => g'.PutMulti rest n

/-- Go `NativeSplitMapUint64.Length`: sums the `length` field of
`g.m[i]` for `i = 0 .. nrOfBuckets`. -/
def NativeSplitMapUint64.Length (g : NativeSplitMapUint64) : Option Int :=
  (List.range (g.nrOfBuckets + 1)).foldl
    (fun acc i => acc.bind (fun a => (g.m i).map (fun st => a + st.length)))
    (some 0)

/-- Go `NativeSplitMapUint64.Delete`: checks the bucket slot first
(wrapped `ErrBucketDoesNotExist`), then the hash (wrapped
`ErrHashDoesNotExist`), then delegates to the bucket's `Delete`. -/
def NativeSplitMapUint64.Delete (g : NativeSplitMapUint64) (hash : Hash) :
    Option MapError × NativeSplitMapUint64 :=
  let bucket := Bytes2Uint16Buckets hash g.nrOfBuckets
  match g.m bucket with
  | none => (some (.bucketDoesNotExist bucket), g)
  | some st =>
    if st.Exists hash then
      let r := st.Delete hash
      (r.1, { g with m := g.m.set bucket r.2 })
    else
      (some (.hashDoesNotExistInBucket bucket hash), g)

/-- Shared shape of both split maps' `Length` loops: the running
`Option`-sum of the `length` fields of buckets `0 .. n-1` (`none` models
the nil-pointer panic on an absent slot). -/
def lenFold (t : BucketTable) (n : Nat) : Option Int :=
  (List.range n).foldl
    (fun acc i => acc.bind (fun a => (t i).map (fun st => a + st.length)))
    (some 0)

/-- Key routed to bucket 0 for a 2-bucket map. -/
def kA : Hash := mkHash 0 0

/-- Key routed to bucket 1 for a 2-bucket map. -/
def kB : Hash := mkHash 0 1

/-- Fresh 2-bucket `NativeSplitMapUint64`. -/
def c5g0 : NativeSplitMapUint64 := NewNativeSplitMapUint64 0 [2]

/-- The 2-bucket map after `Put(kB, 7)`. -/
def c5gA : NativeSplitMapUint64 := (c5g0.Put kB 7).elim c5g0 Prod.snd

/-- Contents of bucket 1 of `c5gA`. -/
def c5st1 : NativeMapUint64 := { m := [(kB, 7)], length := 1 }

/-- The state `c5gA` after bucket 1 is removed from the shard table
directly (the spec's adversarial shard-removal scenario, reachable in Go
through the table returned by `Map()`). -/
def c5gBad : NativeSplitMapUint64 := { m := c5gA.m.remove 1, nrOfBuckets := 2 }

/-- Routing invariant of the sharded map: every key present in some
bucket sits in the bucket the routing function computes for it (hence in
exactly one bucket). -/
def RoutedInv (g : NativeSplitMap) : Prop :=
  ∀ (i : Nat) (st : NativeMapUint64) (k : Hash),
    g.m i = some st → st.Exists k = true →
      i = Bytes2Uint16Buckets k g.nrOfBuckets

/-- States producible from a constructor call by any sequence of the
routing-based public operations `Put`, `PutMulti`, `Set`, `SetIfExists`,
`SetIfNotExists`, `Delete` (constructor bucket counts are positive,
since every routed operation panics on `mod 0` in Go). -/
inductive ReachableRouted : NativeSplitMap → Prop where
  | init (len : Int) (buckets : List Nat)
      (hpos : 0 < (NewNativeSplitMap len buckets).nrOfBuckets) :
      ReachableRouted (NewNativeSplitMap len buckets)
  | put {g : NativeSplitMap} (hg : ReachableRouted g) (hash : Hash) (n : Nat)
      {e : Option MapError} {g' : NativeSplitMap}
      (hstep : g.Put hash n = some (e, g')) : ReachableRouted g'
  | putMulti {g : NativeSplitMap} (hg : ReachableRouted g)
      (hashes : List Hash) (n : Nat) {e : Option MapError}
      {g' : NativeSplitMap}
      (hstep : g.PutMulti hashes n = some (e, g')) : ReachableRouted g'
  | set {g : NativeSplitMap} (hg : ReachableRouted g) (hash : Hash)
      (value : Nat) {e : Option MapError} {g' : NativeSplitMap}
      (hstep : g.Set hash value = some (e, g')) : ReachableRouted g'
  | setIfExists {g : NativeSplitMap} (hg : ReachableRouted g) (hash : Hash)
      (value : Nat) {b : Bool} {g' : NativeSplitMap}
      (hstep : g.SetIfExists hash value = some (b, g')) : ReachableRouted g'
  | setIfNotExists {g : NativeSplitMap} (hg : ReachableRouted g)
      (hash : Hash) (value : Nat) {b : Bool} {g' : NativeSplitMap}
      (hstep : g.SetIfNotExists hash value = some (b, g')) :
      ReachableRouted g'
  | delete {g : NativeSplitMap} (hg : ReachableRouted g) (hash : Hash)
      {e : Option MapError} {g' : NativeSplitMap}
      (hstep : g.Delete hash = (e, g')) : ReachableRouted g'

/-- States producible from a constructor call by any sequence of all the
public mutating operations of the claim, `PutMultiBucket` included. -/
inductive ReachableAll : NativeSplitMap → Prop where
  | init (len : Int) (buckets : List Nat)
      (hpos : 0 < (NewNativeSplitMap len buckets).nrOfBuckets) :
      ReachableAll (NewNativeSplitMap len buckets)
  | put {g : NativeSplitMap} (hg : ReachableAll g) (hash : Hash) (n : Nat)
      {e : Option MapError} {g' : NativeSplitMap}
      (hstep : g.Put hash n = some (e, g')) : ReachableAll g'
  | putMulti {g : NativeSplitMap} (hg : ReachableAll g)
      (hashes : List Hash) (n : Nat) {e : Option MapError}
      {g' : NativeSplitMap}
      (hstep : g.PutMulti hashes n = some (e, g')) : ReachableAll g'
  | putMultiBucket {g : NativeSplitMap} (hg : ReachableAll g) (bucket : Nat)
      (hashes : List Hash) (n : Nat) {e : Option MapError}
      {g' : NativeSplitMap}
      (hstep : g.PutMultiBucket bucket hashes n = some (e, g')) :
      ReachableAll g'
  | set {g : NativeSplitMap} (hg : ReachableAll g) (hash : Hash)
      (value : Nat) {e : Option MapError} {g' : NativeSplitMap}
      (hstep : g.Set hash value = some (e, g')) : ReachableAll g'
  | setIfExists {g : NativeSplitMap} (hg : ReachableAll g) (hash : Hash)
      (value : Nat) {b : Bool} {g' : NativeSplitMap}
      (hstep : g.SetIfExists hash value = some (b, g')) : ReachableAll g'
  | setIfNotExists {g : NativeSplitMap} (hg : ReachableAll g)
      (hash : Hash) (value : Nat) {b : Bool} {g' : NativeSplitMap}
      (hstep : g.SetIfNotExists hash value = some (b, g')) : ReachableAll g'
  | delete {g : NativeSplitMap} (hg : ReachableAll g) (hash : Hash)
      {e : Option MapError} {g' : NativeSplitMap}
      (hstep : g.Delete hash = (e, g')) : ReachableAll g'

/-- Fresh 2-bucket `NativeSplitMap`. -/
def c2g0 : NativeSplitMap := NewNativeSplitMap 0 [2]

/-- The 2-bucket map after the routed `Put(kB, 7)`. -/
def c2gA : NativeSplitMap := (c2g0.Put kB 7).elim c2g0 Prod.snd

/-- Contents of bucket 1 of `c2gA`. -/
def c2st1 : NativeMapUint64 := { m := [(kB, 7)], length := 1 }

/-- The 2-bucket map after `PutMultiBucket(1, [kA], 5)`, which bypasses
routing and stores `kA` (routed to bucket 0) in bucket 1. -/
def c2gBadState : NativeSplitMap :=
  (c2g0.PutMultiBucket 1 [kA] 5).elim c2g0 Prod.snd

/-- Contents of bucket 1 of `c2gBadState`. -/
def c2stBad : NativeMapUint64 := { m := [(kA, 5)], length := 1 }

/-- State after the failing second `Put(kB, 7)` on `c5gA`. -/
def c6g2 : NativeSplitMapUint64 := (c5gA.Put kB 7).elim c5gA Prod.snd

/-- Key routed to bucket 0 for a 2-bucket map, distinct from `kA`. -/
def kC : Hash := mkHash 1 0

/-- Visitor that stops everywhere. -/
def fTrue : Hash → Nat → Bool := fun _ _ => true

/-- Visitor that stops exactly at `kB`. -/
def fStopAtKB : Hash → Nat → Bool := fun h _ => decide (h = kB)

/-- The 2-bucket map holding `kB` in bucket 1 and `kA` in bucket 0. -/
def c9g : NativeSplitMap := (c2gA.Put kA 1).elim c2gA Prod.snd

/-- A 3-entry bucket used to exhibit the within-shard early stop. -/
def c9st : NativeMapUint64 := ⟨[(kA, 1), (kB, 7), (kC, 9)], 3⟩

theorem Hash.byte_lt (h : Hash) (i : Nat) : h.byte i < 256 := by
  unfold Hash.byte
  exact (h.val.getD i 0).isLt

theorem shiftLeft_or_eq_mul_add (a b : Nat) (hb : b < 256) :
    a <<< 8 ||| b = a * 256 + b := by
  have hb' : b < 2 ^ 8 := by omega
  calc a <<< 8 ||| b = 2 ^ 8 * a ||| b := by rw [Nat.shiftLeft_eq, Nat.mul_comm]
    _ = 2 ^ 8 * a + b := (Nat.mul_add_lt_is_or hb' a).symm
    _ = a * 256 + b := by omega

theorem goLookup_goInsert_self (m : List (Hash × Nat)) (k : Hash) (v : Nat) :
    goLookup (goInsert m k v) k = some v := by
  induction m with
  | nil => simp [goInsert, goLookup]
  | cons p rest ih =>
    obtain ⟨k', v'⟩ := p
    by_cases h : k' = k
    · simp [goInsert, goLookup, h]
    · simp [goInsert, goLookup, h, ih]

theorem goLookup_goInsert_ne (m : List (Hash × Nat)) (k k' : Hash) (v : Nat)
    (h : k ≠ k') : goLookup (goInsert m k v) k' = goLookup m k' := by
  induction m with
  | nil => simp [goInsert, goLookup, h]
  | cons p rest ih =>
    obtain ⟨ka, va⟩ := p
    by_cases hk : ka = k
    · subst hk
      simp [goInsert, goLookup, h]
    · simp only [goInsert, if_neg hk]
      by_cases hk' : ka = k'
      · simp [goLookup, hk']
      · simp [goLookup, hk', ih]

theorem goLookup_goInsert_isSome_iff (m : List (Hash × Nat)) (k k' : Hash)
    (v : Nat) :
    (goLookup (goInsert m k v) k').isSome ↔ (goLookup m k').isSome ∨ k' = k := by
  by_cases h : k = k'
  · subst h
    simp [goLookup_goInsert_self]
  · rw [goLookup_goInsert_ne m k k' v h]
    constructor
    · exact Or.inl
    · rintro (hs | he)
      · exact hs
      · exact absurd he (fun hh => h hh.symm)

theorem goLookup_eq_none_of_not_mem_keys (m : List (Hash × Nat)) (k : Hash)
    (h : k ∉ m.map Prod.fst) : goLookup m k = none := by
  induction m with
  | nil => rfl
  | cons p rest ih =>
    obtain ⟨k', v'⟩ := p
    simp only [List.map_cons, List.mem_cons] at h
    push_neg at h
    simp only [goLookup, if_neg (fun hh : k' = k => h.1 hh.symm)]
    exact ih h.2

theorem mem_keys_goInsert (m : List (Hash × Nat)) (k : Hash) (v : Nat)
    (x : Hash) :
    x ∈ (goInsert m k v).map Prod.fst ↔ x ∈ m.map Prod.fst ∨ x = k := by
  induction m with
  | nil => simp [goInsert]
  | cons p rest ih =>
    obtain ⟨k', v'⟩ := p
    by_cases h : k' = k
    · subst h
      simp only [goInsert, if_pos rfl, if_true, List.map_cons, List.mem_cons]
      tauto
    · simp only [goInsert, if_neg h, List.map_cons, List.mem_cons, ih]
      tauto

theorem goInsert_nodupKeys (m : List (Hash × Nat)) (k : Hash) (v : Nat)
    (hnd : (m.map Prod.fst).Nodup) :
    ((goInsert m k v).map Prod.fst).Nodup := by
  induction m with
  | nil => simp [goInsert]
  | cons p rest ih =>
    obtain ⟨k', v'⟩ := p
    simp only [List.map_cons, List.nodup_cons] at hnd
    by_cases h : k' = k
    · subst h
      simp only [goInsert, if_pos rfl, if_true, List.map_cons, List.nodup_cons]
      exact hnd
    · simp only [goInsert, if_neg h, List.map_cons, List.nodup_cons]
      refine ⟨?_, ih hnd.2⟩
      rw [mem_keys_goInsert]
      push_neg
      exact ⟨hnd.1, h⟩

theorem goLookup_goErase_self (m : List (Hash × Nat)) (k : Hash)
    (hnd : (m.map Prod.fst).Nodup) : goLookup (goErase m k) k = none := by
  induction m with
  | nil => rfl
  | cons p rest ih =>
    obtain ⟨k', v'⟩ := p
    simp only [List.map_cons, List.nodup_cons] at hnd
    by_cases h : k' = k
    · subst h
      simp only [goErase, if_pos rfl]
      exact goLookup_eq_none_of_not_mem_keys rest k' hnd.1
    · simp only [goErase, if_neg h, goLookup, if_neg h]
      exact ih hnd.2

theorem goLookup_goErase_ne (m : List (Hash × Nat)) (k k' : Hash)
    (h : k ≠ k') : goLookup (goErase m k) k' = goLookup m k' := by
  induction m with
  | nil => rfl
  | cons p rest ih =>
    obtain ⟨ka, va⟩ := p
    by_cases hk : ka = k
    · subst hk
      simp [goErase, goLookup, fun hh : ka = k' => h hh]
    · simp only [goErase, if_neg hk]
      by_cases hk' : ka = k'
      · simp [goLookup, hk']
      · simp [goLookup, hk', ih]

/-!
General lemmas about the models.
-/

theorem BucketTable.set_apply (t : BucketTable) (i : Nat)
    (st : NativeMapUint64) (j : Nat) :
    t.set i st j = if j = i then some st else t j := rfl

theorem bucketTable_foldl_set (n j : Nat) (v : NativeMapUint64)
    (base : BucketTable) :
    ((List.range n).foldl (fun t i => t.set i v) base) j =
      if j < n then some v else base j := by
  induction n generalizing base with
  | zero => simp
  | succ n ih =>
    rw [List.range_succ, List.foldl_append]
    simp only [List.foldl_cons, List.foldl_nil]
    rw [BucketTable.set_apply]
    by_cases hj' : j = n
    · simp [hj', Nat.lt_succ_self]
    · rw [if_neg hj', ih]
      by_cases hj : j < n
      · simp [hj, Nat.lt_succ_of_lt hj]
      · have hj2 : ¬ j < n + 1 := by omega
        simp [hj, hj2]

theorem initTable_eq (n j : Nat) :
    ((List.range (n + 1)).foldl (fun t i => t.set i (NewNativeMapUint64 0))
        (fun _ => none) : BucketTable) j =
      if j ≤ n then some (NewNativeMapUint64 0) else none := by
  rw [bucketTable_foldl_set]
  by_cases h : j ≤ n
  · simp [h, Nat.lt_succ_of_le h]
  · have h2 : ¬ j < n + 1 := by omega
    simp [h, h2]

set_option maxRecDepth 10000 in
theorem newNativeSplitMap_bucket (len : Int) (buckets : List Nat) (j : Nat) :
    (NewNativeSplitMap len buckets).m j =
      if j ≤ (NewNativeSplitMap len buckets).nrOfBuckets
        then some (NewNativeMapUint64 0) else none := by
  cases buckets with
  | nil => exact initTable_eq 1024 j
  | cons b bs => exact initTable_eq b j

set_option maxRecDepth 10000 in
theorem newNativeSplitMapUint64_bucket (len : Nat) (buckets : List Nat)
    (j : Nat) :
    (NewNativeSplitMapUint64 len buckets).m j =
      if j ≤ (NewNativeSplitMapUint64 len buckets).nrOfBuckets
        then some (NewNativeMapUint64 0) else none := by
  cases buckets with
  | nil => exact initTable_eq 1024 j
  | cons b bs => exact initTable_eq b j

/-- C1. For every 32-byte key and every bucket count `mod > 0`, the
routing function `Bytes2Uint16Buckets(key, mod)` returns a value
strictly below `mod`, equal to the first two bytes read as a big-endian
16-bit integer reduced modulo `mod` (the expression
`(uint16(key[0])<<8 | uint16(key[1])) % mod` of the fuzz test), and two
calls with identical inputs return the identical result. -/
theorem bytes2Uint16Buckets_range_deterministic (key : Hash) (mod : Nat)
    (hmod : 0 < mod) :
    Bytes2Uint16Buckets key mod < mod ∧
      Bytes2Uint16Buckets key mod = (key.byte 0 * 256 + key.byte 1) % mod ∧
      ∀ key2 mod2, key = key2 → mod = mod2 →
        Bytes2Uint16Buckets key mod = Bytes2Uint16Buckets key2 mod2 := by
  refine ⟨Nat.mod_lt _ hmod, ?_, ?_⟩
  · unfold Bytes2Uint16Buckets
    rw [shiftLeft_or_eq_mul_add _ _ (key.byte_lt 1)]
  · intro key2 mod2 hk hm
    rw [hk, hm]

/-- Witness for C1 at the fuzz seed `{0x12, 0x34}` with `mod = 10`:
`0x1234 % 10 = 0`. -/
theorem bytes2Uint16Buckets_range_deterministic_witness :
    0 < 10 ∧ Bytes2Uint16Buckets (mkHash 18 52) 10 < 10 ∧
      Bytes2Uint16Buckets (mkHash 18 52) 10 =
        ((mkHash 18 52).byte 0 * 256 + (mkHash 18 52).byte 1) % 10 :=
  ⟨by decide,
    (bytes2Uint16Buckets_range_deterministic (mkHash 18 52) 10 (by decide)).1,
    (bytes2Uint16Buckets_range_deterministic (mkHash 18 52) 10 (by decide)).2.1⟩

/-- C3. For every key `k` and value `v`, if `Put(k, v)` on the
uint64-valued map `NativeMapUint64` succeeds (returns `nil`), then
immediately afterwards `Exists(k)` returns `true` and `Get(k)` returns
`(v, true)`. -/
theorem nativeMapUint64_put_then_exists_get (s : NativeMapUint64) (k : Hash)
    (v : Nat) (hok : (s.Put k v).1 = none) :
    (s.Put k v).2.Exists k = true ∧ (s.Put k v).2.Get k = (v, true) := by
  unfold NativeMapUint64.Put at hok ⊢
  by_cases h : (goLookup s.m k).isSome
  · simp [h] at hok
  · simp only [h, if_false, Bool.false_eq_true]
    constructor
    · unfold NativeMapUint64.Exists
      simp [goLookup_goInsert_self]
    · unfold NativeMapUint64.Get
      simp [goLookup_goInsert_self]

/-- Witness for C3: putting the zero hash with value 7 into the empty
map succeeds, and the key is then present with value 7. -/
theorem nativeMapUint64_put_then_exists_get_witness :
    ((NewNativeMapUint64 0).Put (mkHash 0 0) 7).1 = none ∧
      (((NewNativeMapUint64 0).Put (mkHash 0 0) 7).2.Exists (mkHash 0 0) = true ∧
        ((NewNativeMapUint64 0).Put (mkHash 0 0) 7).2.Get (mkHash 0 0) =
          (7, true)) :=
  ⟨by decide,
    nativeMapUint64_put_then_exists_get (NewNativeMapUint64 0) (mkHash 0 0) 7
      (by decide)⟩

/-- C4. For every key `k` already present in the uint64-valued map with
value `v0`, a second `Put(k, v1)` returns an error matching the
hash-already-exists sentinel, and afterwards `Get(k)` still returns
`(v0, true)` and `Length` is unchanged: the failed insert mutates
nothing (the state is returned unaltered). -/
theorem nativeMapUint64_duplicate_put (s : NativeMapUint64) (k : Hash)
    (v0 v1 : Nat) (hpresent : s.Get k = (v0, true)) :
    (s.Put k v1).1 = some (MapError.hashAlreadyExists k) ∧
      (MapError.hashAlreadyExists k).sentinel = Sentinel.hashAlreadyExists ∧
      (s.Put k v1).2 = s ∧
      (s.Put k v1).2.Get k = (v0, true) ∧
      (s.Put k v1).2.Length = s.Length := by
  have hsome : (goLookup s.m k).isSome := by
    unfold NativeMapUint64.Get at hpresent
    cases hl : goLookup s.m k with
    | none => rw [hl] at hpresent; simp at hpresent
    | some n => simp [hl]
  unfold NativeMapUint64.Put
  rw [if_pos hsome]
  exact ⟨rfl, rfl, rfl, hpresent, rfl⟩

/-- Witness for C4: after putting the zero hash with value 3, a second
put of the same hash with value 9 fails with the hash-already-exists
error and changes nothing. -/
theorem nativeMapUint64_duplicate_put_witness :
    (((NewNativeMapUint64 0).Put (mkHash 0 0) 3).2.Get (mkHash 0 0) =
        (3, true)) ∧
      ((((NewNativeMapUint64 0).Put (mkHash 0 0) 3).2.Put (mkHash 0 0) 9).1 =
          some (MapError.hashAlreadyExists (mkHash 0 0)) ∧
        (MapError.hashAlreadyExists (mkHash 0 0)).sentinel =
          Sentinel.hashAlreadyExists ∧
        (((NewNativeMapUint64 0).Put (mkHash 0 0) 3).2.Put (mkHash 0 0) 9).2 =
          ((NewNativeMapUint64 0).Put (mkHash 0 0) 3).2 ∧
        (((NewNativeMapUint64 0).Put (mkHash 0 0) 3).2.Put (mkHash 0 0) 9).2.Get
            (mkHash 0 0) = (3, true) ∧
        (((NewNativeMapUint64 0).Put (mkHash 0 0) 3).2.Put (mkHash 0 0)
              9).2.Length =
          ((NewNativeMapUint64 0).Put (mkHash 0 0) 3).2.Length) :=
  ⟨by decide,
    nativeMapUint64_duplicate_put ((NewNativeMapUint64 0).Put (mkHash 0 0) 3).2
      (mkHash 0 0) 3 9 (by decide)⟩

/-- C10. On the key-only map `NativeMap`, `Put` always returns `nil` and
unconditionally increments the length counter (also when the key is
already present), `Delete` always returns `nil` and unconditionally
decrements it (also when the key is absent), and after two `Put`s of the
same key `k` on a fresh map, `Length()` reports 2 while `Keys()` is the
single-element list `[k]`, so `Length()` diverges from the number of
distinct stored keys. -/
theorem nativeMap_length_diverges :
    (∀ (s : NativeMap) (k : Hash),
      (s.Put k).1 = none ∧ (s.Put k).2.length = s.length + 1) ∧
    (∀ (s : NativeMap) (k : Hash),
      (s.Delete k).1 = none ∧ (s.Delete k).2.length = s.length - 1) ∧
    (∀ (c : Nat) (k : Hash),
      (((NewNativeMap c).Put k).2.Put k).2.Length = 2 ∧
      (((NewNativeMap c).Put k).2.Put k).2.Keys = [k]) := by
  refine ⟨fun s k => ⟨rfl, rfl⟩, fun s k => ⟨rfl, rfl⟩, fun c k => ⟨rfl, ?_⟩⟩
  unfold NewNativeMap NativeMap.Put NativeMap.Keys goSetInsert
  simp

theorem nativeSplitMap_length_eq_lenFold (g : NativeSplitMap) :
    g.Length = lenFold g.m (g.nrOfBuckets + 1) := rfl

theorem nativeSplitMapUint64_length_eq_lenFold (g : NativeSplitMapUint64) :
    g.Length = lenFold g.m (g.nrOfBuckets + 1) := rfl

theorem lenFold_succ (t : BucketTable) (n : Nat) :
    lenFold t (n + 1) =
      (lenFold t n).bind (fun a => (t n).map (fun st => a + st.length)) := by
  unfold lenFold
  rw [List.range_succ, List.foldl_append]
  rfl

theorem lenFold_congr (t t' : BucketTable) (n : Nat)
    (h : ∀ i, i < n → t i = t' i) : lenFold t n = lenFold t' n := by
  induction n with
  | zero => rfl
  | succ n ih =>
    rw [lenFold_succ, lenFold_succ, ih (fun i hi => h i (Nat.lt_succ_of_lt hi)),
      h n (Nat.lt_succ_self n)]

theorem lenFold_set (t : BucketTable) (n b : Nat) (st st' : NativeMapUint64)
    (hsome : t b = some st) :
    b < n →
      lenFold (t.set b st') n =
        (lenFold t n).map (fun L => L + (st'.length - st.length)) := by
  induction n with
  | zero => intro hb; omega
  | succ n ih =>
    intro hb
    by_cases hbn : b = n
    · subst hbn
      rw [lenFold_succ, lenFold_succ]
      have hcongr : lenFold (t.set b st') b = lenFold t b :=
        lenFold_congr _ _ b (fun i hi => by
          rw [BucketTable.set_apply, if_neg (by omega)])
      rw [hcongr, BucketTable.set_apply, if_pos rfl, hsome]
      cases lenFold t b with
      | none => rfl
      | some a =>
        simp only [Option.map_some', Option.some_bind]
        congr 1
        omega
    · have hb' : b < n := by omega
      rw [lenFold_succ, lenFold_succ, ih hb', BucketTable.set_apply,
        if_neg (fun hh : n = b => hbn hh.symm)]
      cases lenFold t n with
      | none => rfl
      | some a =>
        cases htn : t n with
        | none => simp
        | some stn =>
          simp only [Option.map_some', Option.some_bind]
          congr 1
          omega

theorem lenFold_empty (t : BucketTable) (n : Nat)
    (h : ∀ i, i < n → t i = some (NewNativeMapUint64 0)) :
    lenFold t n = some 0 := by
  induction n with
  | zero => rfl
  | succ n ih =>
    rw [lenFold_succ, ih (fun i hi => h i (Nat.lt_succ_of_lt hi)),
      h n (Nat.lt_succ_self n)]
    rfl

/-- C7. For every capacity hint, the sharded-map constructor called
without an explicit bucket-count override sets the configured bucket
count to 1024 (`Buckets()` returns 1024, e.g. for `NewSplitMap(10)`),
and eagerly creates `bucketCount + 1` shard instances, one for each
index from 0 through `bucketCount` inclusive (and none beyond). -/
theorem newNativeSplitMap_default (len : Int) :
    (NewNativeSplitMap len []).Buckets = 1024 ∧
      ∀ i : Nat, ((NewNativeSplitMap len []).m i).isSome ↔ i ≤ 1024 := by
  refine ⟨rfl, fun i => ?_⟩
  rw [newNativeSplitMap_bucket]
  have hb : (NewNativeSplitMap len []).nrOfBuckets = 1024 := rfl
  rw [hb]
  by_cases h : i ≤ 1024
  · simp [h]
  · simp [h]

/-- Witness for C7 at capacity hint 10: the bucket count reports 1024,
slot 1024 exists and slot 1025 does not. -/
theorem newNativeSplitMap_default_witness :
    (NewNativeSplitMap 10 []).Buckets = 1024 ∧
      ((NewNativeSplitMap 10 []).m 1024).isSome ∧
      ¬ ((NewNativeSplitMap 10 []).m 1025).isSome :=
  ⟨(newNativeSplitMap_default 10).1,
    ((newNativeSplitMap_default 10).2 1024).mpr (by omega),
    fun h => absurd (((newNativeSplitMap_default 10).2 1025).mp h) (by omega)⟩

/-- C8. For every bucket index `b`, list of keys and value,
`PutMultiBucket(b, keys, value)` on the sharded map returns an error
matching the bucket-does-not-exist sentinel when `b` exceeds the
configured bucket count (`b > bucketCount`), leaving the state
untouched; otherwise (with the slot present, as construction
guarantees) it inserts the keys directly into shard `b` without routing,
delegating to that single bucket's `PutMulti`. -/
theorem nativeSplitMap_putMultiBucket_spec (g : NativeSplitMap) (bucket : Nat)
    (hashes : List Hash) (n : Nat) :
    (bucket > g.nrOfBuckets →
      g.PutMultiBucket bucket hashes n =
        some (some (.bucketDoesNotExistMax bucket g.nrOfBuckets), g) ∧
      (MapError.bucketDoesNotExistMax bucket g.nrOfBuckets).sentinel =
        Sentinel.bucketDoesNotExist) ∧
    (∀ st, bucket ≤ g.nrOfBuckets → g.m bucket = some st →
      g.PutMultiBucket bucket hashes n =
        some ((st.PutMulti hashes n).1,
          { g with m := g.m.set bucket (st.PutMulti hashes n).2 })) := by
  constructor
  · intro hgt
    unfold NativeSplitMap.PutMultiBucket
    rw [if_pos hgt]
    exact ⟨rfl, rfl⟩
  · intro st hle hsome
    unfold NativeSplitMap.PutMultiBucket
    rw [if_neg (by omega), hsome]
    rfl

/-- Witness for C8: the spec scenario with bucket 5000 against a
2-bucket map fails with the bucket-does-not-exist error, and bucket 1
accepts a direct insert. -/
theorem nativeSplitMap_putMultiBucket_spec_witness :
    ((NewNativeSplitMap 0 [2]).PutMultiBucket 5000 [mkHash 0 0] 1 =
        some (some (.bucketDoesNotExistMax 5000 2), NewNativeSplitMap 0 [2]) ∧
      (MapError.bucketDoesNotExistMax 5000 2).sentinel =
        Sentinel.bucketDoesNotExist) ∧
    (NewNativeSplitMap 0 [2]).PutMultiBucket 1 [mkHash 0 0] 1 =
      some (((NewNativeMapUint64 0).PutMulti [mkHash 0 0] 1).1,
        { NewNativeSplitMap 0 [2] with
          m := (NewNativeSplitMap 0 [2]).m.set 1
            (((NewNativeMapUint64 0).PutMulti [mkHash 0 0] 1).2) }) :=
  ⟨(nativeSplitMap_putMultiBucket_spec (NewNativeSplitMap 0 [2]) 5000
      [mkHash 0 0] 1).1 (by decide),
    (nativeSplitMap_putMultiBucket_spec (NewNativeSplitMap 0 [2]) 1
      [mkHash 0 0] 1).2 (NewNativeMapUint64 0) (by decide) rfl⟩

theorem goLookup_goErase_isSome (m : List (Hash × Nat)) (k k' : Hash)
    (h : (goLookup (goErase m k) k').isSome) : (goLookup m k').isSome := by
  induction m with
  | nil => exact h
  | cons p rest ih =>
    obtain ⟨ka, va⟩ := p
    by_cases hk : ka = k
    · rw [goErase, if_pos hk] at h
      rw [goLookup]
      by_cases hk' : ka = k'
      · simp [hk']
      · rw [if_neg hk']
        exact h
    · rw [goErase, if_neg hk] at h
      rw [goLookup]
      by_cases hk' : ka = k'
      · simp [hk']
      · rw [if_neg hk']
        rw [goLookup, if_neg hk'] at h
        exact ih h

/-- C5. For every key `k`, `Delete(k)` on the sharded map
`NativeSplitMapUint64` returns the bucket-does-not-exist error when the
shard slot computed for `k` is absent from the internal shard table
(regardless of the key), returns the hash-does-not-exist error when the
shard exists but `k` is absent, and otherwise succeeds, removing `k` and
decrementing `Length` by exactly 1; the bucket check takes precedence
over the key check. -/
theorem nativeSplitMapUint64_delete_cases (g : NativeSplitMapUint64)
    (hash : Hash) :
    (g.m (Bytes2Uint16Buckets hash g.nrOfBuckets) = none →
      g.Delete hash =
        (some (.bucketDoesNotExist (Bytes2Uint16Buckets hash g.nrOfBuckets)),
          g) ∧
      (MapError.bucketDoesNotExist
          (Bytes2Uint16Buckets hash g.nrOfBuckets)).sentinel =
        Sentinel.bucketDoesNotExist) ∧
    (∀ st, g.m (Bytes2Uint16Buckets hash g.nrOfBuckets) = some st →
      st.Exists hash = false →
      g.Delete hash =
        (some (.hashDoesNotExistInBucket
            (Bytes2Uint16Buckets hash g.nrOfBuckets) hash), g) ∧
      (MapError.hashDoesNotExistInBucket
          (Bytes2Uint16Buckets hash g.nrOfBuckets) hash).sentinel =
        Sentinel.hashDoesNotExist) ∧
    (∀ st, g.m (Bytes2Uint16Buckets hash g.nrOfBuckets) = some st →
      st.Exists hash = true → (st.m.map Prod.fst).Nodup →
      0 < g.nrOfBuckets →
      (g.Delete hash).1 = none ∧
      (g.Delete hash).2.Exists hash = some false ∧
      ∀ L, g.Length = some L → (g.Delete hash).2.Length = some (L - 1)) := by
  refine ⟨?_, ?_, ?_⟩
  · intro hnone
    unfold NativeSplitMapUint64.Delete
    dsimp only
    rw [hnone]
    exact ⟨rfl, rfl⟩
  · intro st hsome hex
    unfold NativeSplitMapUint64.Delete
    dsimp only
    rw [hsome]
    simp only [hex, Bool.false_eq_true, if_false]
    exact ⟨trivial, rfl⟩
  · intro st hsome hex hnd hpos
    have hlk : (goLookup st.m hash).isSome := hex
    have hdel : st.Delete hash =
        (none, { m := goErase st.m hash, length := st.length - 1 }) := by
      unfold NativeMapUint64.Delete
      rw [if_pos hlk]
    have hres : g.Delete hash =
        (none, ⟨g.m.set (Bytes2Uint16Buckets hash g.nrOfBuckets)
          ⟨goErase st.m hash, st.length - 1⟩, g.nrOfBuckets⟩) := by
      unfold NativeSplitMapUint64.Delete
      dsimp only
      rw [hsome]
      simp only [hex, if_true, hdel]
    refine ⟨by rw [hres], ?_, ?_⟩
    · rw [hres]
      unfold NativeSplitMapUint64.Exists
      dsimp only
      rw [BucketTable.set_apply, if_pos rfl, Option.map_some']
      unfold NativeMapUint64.Exists
      dsimp only
      rw [goLookup_goErase_self st.m hash hnd]
      rfl
    · intro L hlen
      rw [hres]
      rw [nativeSplitMapUint64_length_eq_lenFold] at hlen
      rw [nativeSplitMapUint64_length_eq_lenFold]
      dsimp only
      have hblt : Bytes2Uint16Buckets hash g.nrOfBuckets < g.nrOfBuckets + 1 :=
        Nat.lt_succ_of_lt (Nat.mod_lt _ hpos)
      rw [lenFold_set g.m (g.nrOfBuckets + 1)
        (Bytes2Uint16Buckets hash g.nrOfBuckets) st
        ⟨goErase st.m hash, st.length - 1⟩ hsome hblt, hlen]
      rw [Option.map_some']
      congr 1
      dsimp only
      omega

/-- Witness for C5: deleting `kB` after its shard was removed yields the
bucket-does-not-exist error; deleting the absent `kA` on the intact map
yields the hash-does-not-exist error; deleting the present `kB` succeeds,
removes it and drops `Length` from 1 to 0. -/
theorem nativeSplitMapUint64_delete_cases_witness :
    (c5gBad.Delete kB = (some (.bucketDoesNotExist 1), c5gBad)) ∧
    (c5gA.Delete kA = (some (.hashDoesNotExistInBucket 0 kA), c5gA)) ∧
    ((c5gA.Delete kB).1 = none ∧
      (c5gA.Delete kB).2.Exists kB = some false ∧
      (c5gA.Delete kB).2.Length = some 0) :=
  ⟨((nativeSplitMapUint64_delete_cases c5gBad kB).1 rfl).1,
    ((nativeSplitMapUint64_delete_cases c5gA kA).2.1 (NewNativeMapUint64 0)
      rfl rfl).1,
    ⟨((nativeSplitMapUint64_delete_cases c5gA kB).2.2 c5st1 rfl (by decide)
        (by decide) (by decide)).1,
      ((nativeSplitMapUint64_delete_cases c5gA kB).2.2 c5st1 rfl (by decide)
        (by decide) (by decide)).2.1,
      ((nativeSplitMapUint64_delete_cases c5gA kB).2.2 c5st1 rfl (by decide)
        (by decide) (by decide)).2.2 1 (by decide)⟩⟩

theorem routedInv_set_bucket (g : NativeSplitMap) (h : Hash)
    (stOld stNew : NativeMapUint64)
    (hb : g.m (Bytes2Uint16Buckets h g.nrOfBuckets) = some stOld)
    (hkeys : ∀ k, stNew.Exists k = true → stOld.Exists k = true ∨ k = h)
    (hinv : RoutedInv g) :
    RoutedInv ⟨g.m.set (Bytes2Uint16Buckets h g.nrOfBuckets) stNew,
      g.nrOfBuckets⟩ := by
  intro i st k hmi hex
  dsimp only at hmi ⊢
  rw [BucketTable.set_apply] at hmi
  by_cases hib : i = Bytes2Uint16Buckets h g.nrOfBuckets
  · rw [if_pos hib] at hmi
    injection hmi with hst
    subst hst
    rcases hkeys k hex with hold | hkh
    · exact hinv i stOld k (hib ▸ hb) hold
    · subst hkh
      exact hib
  · rw [if_neg hib] at hmi
    exact hinv i st k hmi hex

theorem exists_after_put (st : NativeMapUint64) (hash : Hash) (n : Nat)
    (k : Hash) (hex : (st.Put hash n).2.Exists k = true) :
    st.Exists k = true ∨ k = hash := by
  unfold NativeMapUint64.Put at hex
  by_cases hlk : (goLookup st.m hash).isSome
  · rw [if_pos hlk] at hex
    exact Or.inl hex
  · rw [if_neg hlk] at hex
    unfold NativeMapUint64.Exists at hex ⊢
    dsimp only at hex
    exact (goLookup_goInsert_isSome_iff st.m hash k n).mp hex

theorem exists_after_set (st : NativeMapUint64) (hash : Hash) (n : Nat)
    (k : Hash) (hex : (st.Set hash n).2.Exists k = true) :
    st.Exists k = true ∨ k = hash := by
  unfold NativeMapUint64.Set at hex
  by_cases hlk : (goLookup st.m hash).isSome
  · rw [if_pos hlk] at hex
    unfold NativeMapUint64.Exists at hex ⊢
    dsimp only at hex
    exact (goLookup_goInsert_isSome_iff st.m hash k n).mp hex
  · rw [if_neg hlk] at hex
    exact Or.inl hex

theorem exists_after_setIfExists (st : NativeMapUint64) (hash : Hash)
    (n : Nat) (k : Hash) (hex : (st.SetIfExists hash n).2.Exists k = true) :
    st.Exists k = true ∨ k = hash := by
  unfold NativeMapUint64.SetIfExists at hex
  by_cases hlk : (goLookup st.m hash).isSome
  · rw [if_pos hlk] at hex
    unfold NativeMapUint64.Exists at hex ⊢
    dsimp only at hex
    exact (goLookup_goInsert_isSome_iff st.m hash k n).mp hex
  · rw [if_neg hlk] at hex
    exact Or.inl hex

theorem exists_after_setIfNotExists (st : NativeMapUint64) (hash : Hash)
    (n : Nat) (k : Hash)
    (hex : (st.SetIfNotExists hash n).2.Exists k = true) :
    st.Exists k = true ∨ k = hash := by
  unfold NativeMapUint64.SetIfNotExists at hex
  by_cases hlk : (goLookup st.m hash).isSome
  · rw [if_pos hlk] at hex
    exact Or.inl hex
  · rw [if_neg hlk] at hex
    unfold NativeMapUint64.Exists at hex ⊢
    dsimp only at hex
    exact (goLookup_goInsert_isSome_iff st.m hash k n).mp hex

theorem exists_after_delete (st : NativeMapUint64) (hash : Hash) (k : Hash)
    (hex : (st.Delete hash).2.Exists k = true) :
    st.Exists k = true ∨ k = hash := by
  unfold NativeMapUint64.Delete at hex
  by_cases hlk : (goLookup st.m hash).isSome
  · rw [if_pos hlk] at hex
    unfold NativeMapUint64.Exists at hex ⊢
    dsimp only at hex
    exact Or.inl (goLookup_goErase_isSome st.m hash k hex)
  · rw [if_neg hlk] at hex
    exact Or.inl hex

theorem routedInv_put {g : NativeSplitMap} {hash : Hash} {n : Nat}
    {e : Option MapError} {g' : NativeSplitMap}
    (hstep : g.Put hash n = some (e, g')) (hinv : RoutedInv g) :
    RoutedInv g' := by
  unfold NativeSplitMap.Put at hstep
  dsimp only at hstep
  cases hb : g.m (Bytes2Uint16Buckets hash g.nrOfBuckets) with
  | none => rw [hb] at hstep; exact absurd hstep (by simp)
  | some st =>
    rw [hb, Option.map_some'] at hstep
    injection hstep with hp
    injection hp with h1 h2
    rw [← h2]
    exact routedInv_set_bucket g hash st (st.Put hash n).2 hb
      (fun k hk => exists_after_put st hash n k hk) hinv

theorem routedInv_setOp {g : NativeSplitMap} {hash : Hash} {n : Nat}
    {e : Option MapError} {g' : NativeSplitMap}
    (hstep : g.Set hash n = some (e, g')) (hinv : RoutedInv g) :
    RoutedInv g' := by
  unfold NativeSplitMap.Set at hstep
  dsimp only at hstep
  cases hb : g.m (Bytes2Uint16Buckets hash g.nrOfBuckets) with
  | none => rw [hb] at hstep; exact absurd hstep (by simp)
  | some st =>
    rw [hb, Option.map_some'] at hstep
    injection hstep with hp
    injection hp with h1 h2
    rw [← h2]
    exact routedInv_set_bucket g hash st (st.Set hash n).2 hb
      (fun k hk => exists_after_set st hash n k hk) hinv

theorem routedInv_setIfExists {g : NativeSplitMap} {hash : Hash} {n : Nat}
    {b : Bool} {g' : NativeSplitMap}
    (hstep : g.SetIfExists hash n = some (b, g')) (hinv : RoutedInv g) :
    RoutedInv g' := by
  unfold NativeSplitMap.SetIfExists at hstep
  dsimp only at hstep
  cases hb : g.m (Bytes2Uint16Buckets hash g.nrOfBuckets) with
  | none => rw [hb] at hstep; exact absurd hstep (by simp)
  | some st =>
    rw [hb, Option.map_some'] at hstep
    injection hstep with hp
    injection hp with h1 h2
    rw [← h2]
    exact routedInv_set_bucket g hash st (st.SetIfExists hash n).2 hb
      (fun k hk => exists_after_setIfExists st hash n k hk) hinv

theorem routedInv_setIfNotExists {g : NativeSplitMap} {hash : Hash} {n : Nat}
    {b : Bool} {g' : NativeSplitMap}
    (hstep : g.SetIfNotExists hash n = some (b, g')) (hinv : RoutedInv g) :
    RoutedInv g' := by
  unfold NativeSplitMap.SetIfNotExists at hstep
  dsimp only at hstep
  cases hb : g.m (Bytes2Uint16Buckets hash g.nrOfBuckets) with
  | none => rw [hb] at hstep; exact absurd hstep (by simp)
  | some st =>
    rw [hb, Option.map_some'] at hstep
    injection hstep with hp
    injection hp with h1 h2
    rw [← h2]
    exact routedInv_set_bucket g hash st (st.SetIfNotExists hash n).2 hb
      (fun k hk => exists_after_setIfNotExists st hash n k hk) hinv

theorem routedInv_delete {g : NativeSplitMap} {hash : Hash}
    {e : Option MapError} {g' : NativeSplitMap}
    (hstep : g.Delete hash = (e, g')) (hinv : RoutedInv g) :
    RoutedInv g' := by
  unfold NativeSplitMap.Delete at hstep
  dsimp only at hstep
  cases hb : g.m (Bytes2Uint16Buckets hash g.nrOfBuckets) with
  | none =>
    rw [hb] at hstep
    injection hstep with h1 h2
    rw [← h2]
    exact hinv
  | some st =>
    rw [hb] at hstep
    dsimp only at hstep
    by_cases hex : st.Exists hash = true
    · rw [if_pos hex] at hstep
      injection hstep with h1 h2
      rw [← h2]
      exact routedInv_set_bucket g hash st (st.Delete hash).2 hb
        (fun k hk => exists_after_delete st hash k hk) hinv
    · rw [if_neg hex] at hstep
      injection hstep with h1 h2
      rw [← h2]
      exact hinv

theorem routedInv_putMulti {g : NativeSplitMap} {hashes : List Hash}
    {n : Nat} {e : Option MapError} {g' : NativeSplitMap}
    (hstep : g.PutMulti hashes n = some (e, g')) (hinv : RoutedInv g) :
    RoutedInv g' := by
  induction hashes generalizing g with
  | nil =>
    unfold NativeSplitMap.PutMulti at hstep
    injection hstep with hp
    injection hp with h1 h2
    rw [← h2]
    exact hinv
  | cons hash rest ih =>
    unfold NativeSplitMap.PutMulti at hstep
    cases hput : g.Put hash n with
    | none => rw [hput] at hstep; exact absurd hstep (by simp)
    | some r =>
      obtain ⟨e2, gmid⟩ := r
      cases e2 with
      | some err =>
        rw [hput] at hstep
        injection hstep with hp
        injection hp with h1 h2
        rw [← h2]
        exact routedInv_put hput hinv
      | none =>
        rw [hput] at hstep
        exact ih hstep (routedInv_put hput hinv)

theorem reachableRouted_inv {g : NativeSplitMap} (hg : ReachableRouted g) :
    RoutedInv g := by
  induction hg with
  | init len buckets hpos =>
    intro i st k hmi hex
    rw [newNativeSplitMap_bucket] at hmi
    by_cases hi : i ≤ (NewNativeSplitMap len buckets).nrOfBuckets
    · rw [if_pos hi] at hmi
      injection hmi with hst
      rw [← hst] at hex
      simp [NativeMapUint64.Exists, NewNativeMapUint64, goLookup] at hex
    · rw [if_neg hi] at hmi
      exact absurd hmi (by simp)
  | put hg hash n hstep ih => exact routedInv_put hstep ih
  | putMulti hg hashes n hstep ih => exact routedInv_putMulti hstep ih
  | set hg hash value hstep ih => exact routedInv_setOp hstep ih
  | setIfExists hg hash value hstep ih => exact routedInv_setIfExists hstep ih
  | setIfNotExists hg hash value hstep ih =>
    exact routedInv_setIfNotExists hstep ih
  | delete hg hash hstep ih => exact routedInv_delete hstep ih

/-- Counterexample to C2 as stated: the state reached from a fresh
2-bucket map by the single public operation `PutMultiBucket(1, [kA], 5)`
(an operation in the claim's list) holds the key `kA` in shard 1, while
the routing function computes shard 0 for `kA`; so a present key need
not reside in the shard the routing function computes when
`PutMultiBucket` is among the allowed operations. -/
theorem nativeSplitMap_routing_claim_cex :
    ReachableAll c2gBadState ∧
    c2gBadState.m 1 = some c2stBad ∧
    c2stBad.Exists kA = true ∧
    Bytes2Uint16Buckets kA c2gBadState.nrOfBuckets = 0 ∧
    (1 : Nat) ≠ 0 :=
  ⟨ReachableAll.putMultiBucket (ReachableAll.init 0 [2] (by decide)) 1 [kA] 5
      rfl,
    rfl, by decide, by decide, by decide⟩

/-- C2 (amended). For every state of the sharded map producible by any
sequence of the routing-based public operations `Put`, `PutMulti`,
`Set`, `SetIfExists`, `SetIfNotExists`, `Delete` (that is, the claim's
operation list without `PutMultiBucket`, which bypasses routing), every
key that is present resides in exactly one shard, namely the shard whose
index the routing function computes for that key and the configured
bucket count. -/
theorem nativeSplitMap_key_in_routed_shard_only (g : NativeSplitMap)
    (hg : ReachableRouted g) (i : Nat) (st : NativeMapUint64) (k : Hash)
    (hm : g.m i = some st) (hex : st.Exists k = true) :
    i = Bytes2Uint16Buckets k g.nrOfBuckets :=
  reachableRouted_inv hg i st k hm hex

/-- Witness for the amended C2: after the routed `Put(kB, 7)` on a fresh
2-bucket map, `kB` sits in shard 1, which is exactly its routed shard. -/
theorem nativeSplitMap_key_in_routed_shard_only_witness :
    c2gA.m 1 = some c2st1 ∧ c2st1.Exists kB = true ∧
      1 = Bytes2Uint16Buckets kB c2gA.nrOfBuckets :=
  ⟨rfl, by decide,
    nativeSplitMap_key_in_routed_shard_only c2gA
      (ReachableRouted.put (ReachableRouted.init 0 [2] (by decide)) kB 7 rfl)
      1 c2st1 kB rfl (by decide)⟩

theorem splitU64_put_nrOfBuckets {g : NativeSplitMapUint64} {hash : Hash}
    {n : Nat} {e : Option MapError} {g' : NativeSplitMapUint64}
    (hstep : g.Put hash n = some (e, g')) :
    g'.nrOfBuckets = g.nrOfBuckets := by
  unfold NativeSplitMapUint64.Put at hstep
  dsimp only at hstep
  cases hb : g.m (Bytes2Uint16Buckets hash g.nrOfBuckets) with
  | none => rw [hb] at hstep; exact absurd hstep (by simp)
  | some st =>
    rw [hb, Option.map_some'] at hstep
    injection hstep with hp
    injection hp with h1 h2
    rw [← h2]

theorem exists_preserved_by_bucket_put (st : NativeMapUint64) (hash2 : Hash)
    (n : Nat) (h : Hash) (hex : st.Exists h = true) :
    (st.Put hash2 n).2.Exists h = true := by
  unfold NativeMapUint64.Put
  by_cases hlk : (goLookup st.m hash2).isSome
  · rw [if_pos hlk]
    exact hex
  · rw [if_neg hlk]
    unfold NativeMapUint64.Exists at hex ⊢
    dsimp only
    exact (goLookup_goInsert_isSome_iff st.m hash2 h n).mpr (Or.inl hex)

theorem splitU64_exists_some_true {g : NativeSplitMapUint64} {h : Hash}
    (hex : g.Exists h = some true) :
    ∃ st, g.m (Bytes2Uint16Buckets h g.nrOfBuckets) = some st ∧
      st.Exists h = true := by
  unfold NativeSplitMapUint64.Exists at hex
  cases hb : g.m (Bytes2Uint16Buckets h g.nrOfBuckets) with
  | none => rw [hb] at hex; exact absurd hex (by simp)
  | some st =>
    rw [hb, Option.map_some'] at hex
    exact ⟨st, rfl, Option.some.inj hex⟩

theorem splitU64_put_preserves_exists {g : NativeSplitMapUint64}
    {hash2 : Hash} {n : Nat} {e : Option MapError} {g' : NativeSplitMapUint64}
    (hstep : g.Put hash2 n = some (e, g')) (h : Hash)
    (hex : g.Exists h = some true) : g'.Exists h = some true := by
  obtain ⟨sth, hbh, hexh⟩ := splitU64_exists_some_true hex
  unfold NativeSplitMapUint64.Put at hstep
  dsimp only at hstep
  cases hb2 : g.m (Bytes2Uint16Buckets hash2 g.nrOfBuckets) with
  | none => rw [hb2] at hstep; exact absurd hstep (by simp)
  | some st2 =>
    rw [hb2, Option.map_some'] at hstep
    injection hstep with hp
    injection hp with h1 h2
    rw [← h2]
    unfold NativeSplitMapUint64.Exists
    dsimp only
    by_cases heq : Bytes2Uint16Buckets h g.nrOfBuckets =
        Bytes2Uint16Buckets hash2 g.nrOfBuckets
    · rw [heq, BucketTable.set_apply, if_pos rfl, Option.map_some']
      have hst : sth = st2 := by
        rw [heq] at hbh
        exact Option.some.inj (hbh.symm.trans hb2)
      rw [hst] at hexh
      rw [exists_preserved_by_bucket_put st2 hash2 n h hexh]
    · rw [BucketTable.set_apply, if_neg heq, hbh, Option.map_some', hexh]

theorem splitU64_put_exists_self {g : NativeSplitMapUint64} {hash : Hash}
    {n : Nat} {g' : NativeSplitMapUint64}
    (hstep : g.Put hash n = some (none, g')) : g'.Exists hash = some true := by
  unfold NativeSplitMapUint64.Put at hstep
  dsimp only at hstep
  cases hb : g.m (Bytes2Uint16Buckets hash g.nrOfBuckets) with
  | none => rw [hb] at hstep; exact absurd hstep (by simp)
  | some st =>
    rw [hb, Option.map_some'] at hstep
    injection hstep with hp
    injection hp with h1 h2
    have hok : ¬ (goLookup st.m hash).isSome := by
      intro hlk
      unfold NativeMapUint64.Put at h1
      rw [if_pos hlk] at h1
      exact absurd h1 (by simp)
    rw [← h2]
    unfold NativeSplitMapUint64.Exists
    dsimp only
    rw [BucketTable.set_apply, if_pos rfl, Option.map_some']
    unfold NativeMapUint64.Put
    rw [if_neg hok]
    unfold NativeMapUint64.Exists
    dsimp only
    rw [goLookup_goInsert_self]
    rfl

theorem splitU64_put_error_shape {g : NativeSplitMapUint64} {hash : Hash}
    {n : Nat} {e : MapError} {g' : NativeSplitMapUint64}
    (hstep : g.Put hash n = some (some e, g')) :
    e = .hashAlreadyExists hash ∧ g' = g := by
  unfold NativeSplitMapUint64.Put at hstep
  dsimp only at hstep
  cases hb : g.m (Bytes2Uint16Buckets hash g.nrOfBuckets) with
  | none => rw [hb] at hstep; exact absurd hstep (by simp)
  | some st =>
    rw [hb, Option.map_some'] at hstep
    injection hstep with hp
    injection hp with h1 h2
    by_cases hlk : (goLookup st.m hash).isSome
    · unfold NativeMapUint64.Put at h1 h2
      rw [if_pos hlk] at h1 h2
      refine ⟨(Option.some.inj h1).symm, ?_⟩
      rw [← h2]
      dsimp only
      have hmeq : g.m.set (Bytes2Uint16Buckets hash g.nrOfBuckets) st = g.m := by
        funext j
        rw [BucketTable.set_apply]
        by_cases hj : j = Bytes2Uint16Buckets hash g.nrOfBuckets
        · rw [if_pos hj, hj, hb]
        · rw [if_neg hj]
      cases g with
      | mk m nr => simp only at hmeq ⊢; rw [hmeq]
    · unfold NativeMapUint64.Put at h1
      rw [if_neg hlk] at h1
      exact absurd h1 (by simp)

theorem splitU64_putMulti_preserves_exists {g : NativeSplitMapUint64}
    {hashes : List Hash} {n : Nat} {e : Option MapError}
    {g' : NativeSplitMapUint64}
    (hstep : g.PutMulti hashes n = some (e, g')) (h : Hash)
    (hex : g.Exists h = some true) : g'.Exists h = some true := by
  induction hashes generalizing g with
  | nil =>
    unfold NativeSplitMapUint64.PutMulti at hstep
    injection hstep with hp
    injection hp with h1 h2
    rw [← h2]
    exact hex
  | cons hash rest ih =>
    unfold NativeSplitMapUint64.PutMulti at hstep
    cases hput : g.Put hash n with
    | none => rw [hput] at hstep; exact absurd hstep (by simp)
    | some r =>
      obtain ⟨e2, gmid⟩ := r
      cases e2 with
      | some err =>
        rw [hput] at hstep
        injection hstep with hp
        injection hp with h1 h2
        rw [← h2]
        exact splitU64_put_preserves_exists hput h hex
      | none =>
        rw [hput] at hstep
        exact ih hstep (splitU64_put_preserves_exists hput h hex)

theorem splitU64_putMulti_all_exist {g : NativeSplitMapUint64}
    {hashes : List Hash} {n : Nat} {g' : NativeSplitMapUint64}
    (hstep : g.PutMulti hashes n = some (none, g')) :
    ∀ h ∈ hashes, g'.Exists h = some true := by
  induction hashes generalizing g with
  | nil => intro h hmem; exact absurd hmem (by simp)
  | cons hash rest ih =>
    intro h hmem
    unfold NativeSplitMapUint64.PutMulti at hstep
    cases hput : g.Put hash n with
    | none => rw [hput] at hstep; exact absurd hstep (by simp)
    | some r =>
      obtain ⟨e2, gmid⟩ := r
      cases e2 with
      | some err =>
        rw [hput] at hstep
        injection hstep with hp
        injection hp with h1 h2
        exact absurd h1.symm (by simp)
      | none =>
        rw [hput] at hstep
        rcases List.mem_cons.mp hmem with hkh | hmem2
        · subst hkh
          exact splitU64_putMulti_preserves_exists hstep h
            (splitU64_put_exists_self hput)
        · exact ih hstep h hmem2

theorem splitU64_putMulti_append_fail {g : NativeSplitMapUint64}
    {pre : List Hash} {k : Hash} {rest : List Hash} {v : Nat}
    {g' : NativeSplitMapUint64} {e : MapError} {g2 : NativeSplitMapUint64}
    (hpre : g.PutMulti pre v = some (none, g'))
    (hfail : g'.Put k v = some (some e, g2)) :
    g.PutMulti (pre ++ k :: rest) v =
      some (some (.putMultiWrap (Bytes2Uint16Buckets k g'.nrOfBuckets) e),
        g2) := by
  induction pre generalizing g with
  | nil =>
    unfold NativeSplitMapUint64.PutMulti at hpre
    injection hpre with hp
    injection hp with h1 h2
    subst h2
    rw [List.nil_append]
    unfold NativeSplitMapUint64.PutMulti
    rw [hfail]
  | cons p pre' ih =>
    unfold NativeSplitMapUint64.PutMulti at hpre
    cases hput : g.Put p v with
    | none => rw [hput] at hpre; exact absurd hpre (by simp)
    | some r =>
      obtain ⟨e2, gmid⟩ := r
      cases e2 with
      | some err =>
        rw [hput] at hpre
        injection hpre with hp
        injection hp with h1 h2
        exact absurd h1.symm (by simp)
      | none =>
        rw [hput] at hpre
        rw [List.cons_append]
        unfold NativeSplitMapUint64.PutMulti
        rw [hput]
        exact ih hpre

/-- C6. On the sharded map `NativeSplitMapUint64`, `PutMulti` inserts
the keys in list order and stops at the first key whose per-shard insert
fails: if every key of `pre` inserts cleanly and `k` then fails, the
call on `pre ++ k :: rest` returns the error wrapping the underlying
hash-already-exists cause together with the offending bucket index,
never touches `rest`, leaves the state exactly as after the prefix (no
rollback), and every key of `pre` remains present; in particular a call
with the same key twice inserts the first occurrence, fails on the
second, and leaves `Length` at exactly 1 contributed key. -/
theorem nativeSplitMapUint64_putMulti_first_failure :
    (∀ (g : NativeSplitMapUint64) (pre : List Hash) (k : Hash)
      (rest : List Hash) (v : Nat) (g' g2 : NativeSplitMapUint64)
      (e : MapError),
      g.PutMulti pre v = some (none, g') →
      g'.Put k v = some (some e, g2) →
      g.PutMulti (pre ++ k :: rest) v =
        some (some (.putMultiWrap (Bytes2Uint16Buckets k g'.nrOfBuckets) e),
          g2) ∧
      e = .hashAlreadyExists k ∧
      g2 = g' ∧
      ∀ h ∈ pre, g2.Exists h = some true) ∧
    (∀ (cap b v : Nat) (k : Hash), 0 < b →
      ((NewNativeSplitMapUint64 cap [b]).PutMulti [k, k] v).map Prod.fst =
        some (some (.putMultiWrap (Bytes2Uint16Buckets k b)
          (.hashAlreadyExists k))) ∧
      ((NewNativeSplitMapUint64 cap [b]).PutMulti [k, k] v).map
        (fun r => r.2.Exists k) = some (some true) ∧
      ((NewNativeSplitMapUint64 cap [b]).PutMulti [k, k] v).map
        (fun r => r.2.Length) = some (some 1)) := by
  constructor
  · intro g pre k rest v g' g2 e hpre hfail
    obtain ⟨he, hg2⟩ := splitU64_put_error_shape hfail
    refine ⟨splitU64_putMulti_append_fail hpre hfail, he, hg2, ?_⟩
    intro h hmem
    rw [hg2]
    exact splitU64_putMulti_all_exist hpre h hmem
  · intro cap b v k hb
    have hblt : Bytes2Uint16Buckets k b < b := Nat.mod_lt _ hb
    have hbucket : (NewNativeSplitMapUint64 cap [b]).m
        (Bytes2Uint16Buckets k b) = some (NewNativeMapUint64 0) := by
      rw [newNativeSplitMapUint64_bucket]
      have hle : Bytes2Uint16Buckets k b ≤
          (NewNativeSplitMapUint64 cap [b]).nrOfBuckets :=
        Nat.le_of_lt hblt
      rw [if_pos hle]
    have hput1 : (NewNativeSplitMapUint64 cap [b]).Put k v =
        some (none, ⟨(NewNativeSplitMapUint64 cap [b]).m.set
          (Bytes2Uint16Buckets k b) ⟨[(k, v)], (0 : Int) + 1⟩, b⟩) := by
      unfold NativeSplitMapUint64.Put
      dsimp only
      rw [show (NewNativeSplitMapUint64 cap [b]).nrOfBuckets = b from rfl]
      rw [hbucket, Option.map_some']
      rfl
    have hlk1 : goLookup ([(k, v)] : List (Hash × Nat)) k = some v :=
      goLookup_goInsert_self [] k v
    have hst1put : (⟨[(k, v)], (0 : Int) + 1⟩ : NativeMapUint64).Put k v =
        (some (.hashAlreadyExists k), ⟨[(k, v)], (0 : Int) + 1⟩) := by
      unfold NativeMapUint64.Put
      rw [if_pos (by rw [show goLookup ([(k, v)] : List (Hash × Nat)) k =
        some v from hlk1]; rfl)]
    have hput2 : (⟨(NewNativeSplitMapUint64 cap [b]).m.set
          (Bytes2Uint16Buckets k b) ⟨[(k, v)], (0 : Int) + 1⟩, b⟩ :
            NativeSplitMapUint64).Put k v =
        some (some (.hashAlreadyExists k),
          ⟨((NewNativeSplitMapUint64 cap [b]).m.set
              (Bytes2Uint16Buckets k b) ⟨[(k, v)], (0 : Int) + 1⟩).set
            (Bytes2Uint16Buckets k b) ⟨[(k, v)], (0 : Int) + 1⟩, b⟩) := by
      unfold NativeSplitMapUint64.Put
      dsimp only
      rw [BucketTable.set_apply, if_pos rfl, Option.map_some', hst1put]
    have hfull : (NewNativeSplitMapUint64 cap [b]).PutMulti [k, k] v =
        some (some (.putMultiWrap (Bytes2Uint16Buckets k b)
          (.hashAlreadyExists k)),
          ⟨((NewNativeSplitMapUint64 cap [b]).m.set
              (Bytes2Uint16Buckets k b) ⟨[(k, v)], (0 : Int) + 1⟩).set
            (Bytes2Uint16Buckets k b) ⟨[(k, v)], (0 : Int) + 1⟩, b⟩) := by
      unfold NativeSplitMapUint64.PutMulti
      rw [hput1]
      dsimp only
      unfold NativeSplitMapUint64.PutMulti
      rw [hput2]
    refine ⟨by rw [hfull]; rfl, ?_, ?_⟩
    · rw [hfull, Option.map_some']
      unfold NativeSplitMapUint64.Exists
      dsimp only
      rw [BucketTable.set_apply, if_pos rfl, Option.map_some']
      unfold NativeMapUint64.Exists
      dsimp only
      rw [hlk1]
      rfl
    · rw [hfull, Option.map_some']
      rw [nativeSplitMapUint64_length_eq_lenFold]
      dsimp only
      rw [lenFold_set _ (b + 1) (Bytes2Uint16Buckets k b)
        ⟨[(k, v)], (0 : Int) + 1⟩ ⟨[(k, v)], (0 : Int) + 1⟩
        (by rw [BucketTable.set_apply, if_pos rfl]) (Nat.lt_succ_of_lt hblt)]
      rw [lenFold_set _ (b + 1) (Bytes2Uint16Buckets k b)
        (NewNativeMapUint64 0) ⟨[(k, v)], (0 : Int) + 1⟩
        hbucket (Nat.lt_succ_of_lt hblt)]
      rw [lenFold_empty _ (b + 1) (fun i hi => by
        rw [newNativeSplitMapUint64_bucket]
        rw [show (NewNativeSplitMapUint64 cap [b]).nrOfBuckets = b from rfl]
        rw [if_pos (Nat.lt_succ_iff.mp hi)])]
      rfl

/-- Witness for C6: on a fresh 2-bucket map, `PutMulti([kB, kB], 7)`
inserts the first `kB`, fails on the second with the wrapped
hash-already-exists error naming bucket 1, leaves the prefix state
unchanged with `kB` present, and `Length` ends at exactly 1. -/
theorem nativeSplitMapUint64_putMulti_first_failure_witness :
    (c5g0.PutMulti [kB] 7 = some (none, c5gA) ∧
      c5gA.Put kB 7 = some (some (.hashAlreadyExists kB), c6g2) ∧
      c5g0.PutMulti [kB, kB] 7 =
        some (some (.putMultiWrap (Bytes2Uint16Buckets kB c5gA.nrOfBuckets)
          (.hashAlreadyExists kB)), c6g2) ∧
      c6g2 = c5gA ∧ c6g2.Exists kB = some true) ∧
    (0 < 2 ∧
      ((NewNativeSplitMapUint64 0 [2]).PutMulti [kB, kB] 7).map
        (fun r => r.2.Length) = some (some 1)) :=
  ⟨⟨rfl, rfl,
    (nativeSplitMapUint64_putMulti_first_failure.1 c5g0 [kB] kB [] 7 c5gA
      c6g2 (.hashAlreadyExists kB) rfl rfl).1,
    (nativeSplitMapUint64_putMulti_first_failure.1 c5g0 [kB] kB [] 7 c5gA
      c6g2 (.hashAlreadyExists kB) rfl rfl).2.2.1,
    (nativeSplitMapUint64_putMulti_first_failure.1 c5g0 [kB] kB [] 7 c5gA
      c6g2 (.hashAlreadyExists kB) rfl rfl).2.2.2 kB (by simp)⟩,
   ⟨by decide,
    (nativeSplitMapUint64_putMulti_first_failure.2 0 2 7 kB (by decide)).2.2⟩⟩

theorem iterFold_eq (t : BucketTable) (f : Hash → Nat → Bool) (n : Nat)
    (hall : ∀ i, i < n → (t i).isSome) (acc : List (Hash × Nat)) :
    (List.range n).foldl
        (fun a i => a.bind (fun l => (t i).map
          (fun st => l ++ st.iterTrace f)))
        (some acc) =
      some (acc ++ (List.range n).flatMap
        (fun i => (t i).elim [] (fun st => st.iterTrace f))) := by
  induction n generalizing acc with
  | zero => simp
  | succ n ih =>
    rw [List.range_succ, List.foldl_append]
    rw [ih (fun i hi => hall i (Nat.lt_succ_of_lt hi))]
    cases hstn : t n with
    | none => exact absurd (hall n (Nat.lt_succ_self n)) (by rw [hstn]; simp)
    | some stn =>
      simp only [List.foldl_cons, List.foldl_nil, Option.some_bind, hstn,
        Option.map_some', List.flatMap_append, List.flatMap_cons,
        List.flatMap_nil, Option.elim_some]
      rw [List.append_assoc, List.append_nil]

/-- C9. For every visitor function, `Iter` on the sharded map visits
shards in ascending index order (the trace is the concatenation, over
bucket indices `0 .. nrOfBuckets` in order, of each bucket's own
traversal), and a visitor returning `true` during some shard's traversal
halts only that shard's traversal — the entries of that shard after the
stopping entry are skipped, while every later shard is still traversed;
the stop signal never terminates the whole iteration. -/
theorem nativeSplitMap_iter_per_shard_stop (g : NativeSplitMap)
    (f : Hash → Nat → Bool) :
    ((∀ i, i ≤ g.nrOfBuckets → (g.m i).isSome) →
      g.iterTrace f =
        some ((List.range (g.nrOfBuckets + 1)).flatMap
          (fun i => (g.m i).elim [] (fun st => st.iterTrace f)))) ∧
    (∀ (st : NativeMapUint64) (pre : List (Hash × Nat)) (kv : Hash × Nat)
      (post : List (Hash × Nat)),
      st.m = pre ++ kv :: post →
      (∀ e ∈ pre, f e.1 e.2 = false) → f kv.1 kv.2 = true →
      st.iterTrace f = pre ++ [kv]) := by
  constructor
  · intro hall
    unfold NativeSplitMap.iterTrace
    rw [iterFold_eq g.m f (g.nrOfBuckets + 1)
      (fun i hi => hall i (Nat.lt_succ_iff.mp hi)) []]
    rw [List.nil_append]
  · intro st pre kv post hsplit hpre hstop
    unfold NativeMapUint64.iterTrace
    rw [hsplit]
    clear hsplit
    induction pre with
    | nil =>
      obtain ⟨k, v⟩ := kv
      simp only [List.nil_append]
      unfold iterVisited
      rw [hstop]
      rfl
    | cons e pre' ih =>
      obtain ⟨ke, ve⟩ := e
      simp only [List.cons_append]
      unfold iterVisited
      rw [hpre (ke, ve) (List.mem_cons_self _ _), if_neg (by simp)]
      rw [ih (fun x hx => hpre x (List.mem_cons_of_mem _ hx))]

/-- Witness for C9: with the always-stop visitor, iteration still
reaches bucket 1 after stopping in bucket 0 (both entries appear, in
ascending shard order); and a visitor stopping at `kB` inside a 3-entry
shard skips only that shard's remaining entry. -/
theorem nativeSplitMap_iter_per_shard_stop_witness :
    ((∀ i, i ≤ c9g.nrOfBuckets → (c9g.m i).isSome) ∧
      c9g.iterTrace fTrue = some [(kA, 1), (kB, 7)]) ∧
    (c9st.m = [(kA, 1)] ++ (kB, 7) :: [(kC, 9)] ∧
      fStopAtKB kB 7 = true ∧
      c9st.iterTrace fStopAtKB = [(kA, 1)] ++ [(kB, 7)]) :=
  ⟨⟨by decide,
    ((nativeSplitMap_iter_per_shard_stop c9g fTrue).1 (by decide)).trans rfl⟩,
   ⟨rfl, by decide,
    (nativeSplitMap_iter_per_shard_stop c9g fStopAtKB).2 c9st [(kA, 1)]
      (kB, 7) [(kC, 9)] rfl (by decide) (by decide)⟩⟩
